import Mathlib

/-!
Shallow embedding of the numerologyCalculator repository (Go) in Lean 4.

Conventions of the embedding:
- Go strings are modelled as `List Char`; after the package normalises input
  with ToAscii, byte indices and rune indices coincide, so list indexing is
  faithful to the byte-indexed Go loops.
- Go `int` values that are only ever non-negative on the verified paths
  (reduction inputs, counts, search bounds) are modelled as `Nat`; values whose
  sign carries meaning (target-number lists, SQL bounds, row ids/offsets) are
  modelled as `Int`.
- Go maps with `(value, ok)` access are modelled as `Char → Option Nat`
  (number systems) or association lists (digit counts).
- Database-touching functions are modelled by their pure fragments:
  `queryKarmicLessons` returns the list of predicates it would attach,
  the search dispatcher returns an outcome marker instead of running SQL, and
  the paging logic of `nameSearch` takes the rows the query would return.
-/

/- ===================== Definitions ===================== -/

/-- Source `isMasterNumber` (utils): linear scan of the master-number list. -/
def isMasterNumber (v : Nat) (masterNumbers : List Nat) : Bool :=
  masterNumbers.contains v

/-- Helper of source `splitNumber`: Go formats the number in decimal and reads
the digit bytes back; this recursion produces the same most-significant-first
digit list. -/
def splitNumberAux (n : Nat) (acc : List Nat) : List Nat :=
  if n < 10 then n :: acc
  else splitNumberAux (n / 10) (n % 10 :: acc)
termination_by n
decreasing_by exact Nat.div_lt_self (by omega) (by omega)

/-- Source `splitNumber`: convert a number into the list of its decimal digits,
`1234 ↦ [1,2,3,4]`, `0 ↦ [0]`. -/
def splitNumber (i : Nat) : List Nat := splitNumberAux i []

/-- Source `reduceNumbers`: append `n` to the step list; stop when `n < 10` or
`n` is a master number, otherwise recurse on the digit sum of `n`. -/
def reduceNumbers (n : Nat) (masterNumbers : List Nat) (steps : List Nat) : List Nat :=
  let steps2 := steps ++ [n]
  if n < 10 then steps2
  else if isMasterNumber n masterNumbers then steps2
  else reduceNumbers (splitNumber n).sum masterNumbers steps2
termination_by n
decreasing_by
  rename_i h1 _
  have hle : ∀ m acc, (splitNumberAux m acc).sum ≤ m + acc.sum := by
    intro m
    induction m using Nat.strong_induction_on with
    | _ m ih =>
      intro acc
      rw [splitNumberAux]
      split
      · simp
      · have := ih (m / 10) (Nat.div_lt_self (by omega) (by omega)) (m % 10 :: acc)
        simp only [List.sum_cons] at this
        omega
  have : (splitNumber n).sum < n := by
    rw [splitNumber, splitNumberAux]
    split
    · omega
    · have := hle (n / 10) [n % 10]
      simp only [List.sum_cons, List.sum_nil] at this
      omega
  exact this

/-- Source `NumberSystem`: the letter-to-number conversion table. The Go map
`NumberMapping` with its `(value, ok)` access is modelled as a partial
function. -/
structure NumberSystem where
  Name : List Char
  NumberMapping : Char → Option Nat
  ValidNumbers : List Nat

/-- Rows shared by both Go conversion tables: each decimal digit maps to its
own value (the Go maps list the ten digit keys one by one) and space, period
and dash map to 0 as acceptable no-value characters. -/
def digitOrPunctValue (c : Char) : Option Nat :=
  if '0' ≤ c ∧ c ≤ '9' then some (c.toNat - 48)
  else if c = ' ' ∨ c = '.' ∨ c = '-' then some 0
  else none

/-- Conversion table of the source variable `Pythagorean` (numberSystems.go). -/
def pythagoreanMapping (c : Char) : Option Nat :=
  match c with
  | 'a' | 'j' | 's' => some 1
  | 'b' | 'k' | 't' => some 2
  | 'c' | 'l' | 'u' => some 3
  | 'd' | 'm' | 'v' => some 4
  | 'e' | 'n' | 'w' => some 5
  | 'f' | 'o' | 'x' => some 6
  | 'g' | 'p' | 'y' => some 7
  | 'h' | 'q' | 'z' => some 8
  | 'i' | 'r' => some 9
  | _ => digitOrPunctValue c

/-- Conversion table of the source variable `Chaldean` (numberSystems.go). -/
def chaldeanMapping (c : Char) : Option Nat :=
  match c with
  | 'a' | 'i' | 'j' | 'q' | 'y' => some 1
  | 'b' | 'k' | 'r' => some 2
  | 'c' | 'g' | 'l' | 's' => some 3
  | 'd' | 'm' | 't' => some 4
  | 'e' | 'h' | 'n' | 'x' => some 5
  | 'u' | 'v' | 'w' => some 6
  | 'o' | 'z' => some 7
  | 'f' | 'p' => some 8
  | _ => digitOrPunctValue c

/-- Source global `Pythagorean`. -/
def Pythagorean : NumberSystem :=
  { Name := ['P', 'y', 't', 'h', 'a', 'g', 'o', 'r', 'e', 'a', 'n'],
    NumberMapping := pythagoreanMapping,
    ValidNumbers := [1, 2, 3, 4, 5, 6, 7, 8, 9] }

/-- Source global `Chaldean`. -/
def Chaldean : NumberSystem :=
  { Name := ['C', 'h', 'a', 'l', 'd', 'e', 'a', 'n'],
    NumberMapping := chaldeanMapping,
    ValidNumbers := [1, 2, 3, 4, 5, 6, 7, 8] }

/-- ASCII case folding, the fragment of Go `unicode.ToLower` relevant after
ToAscii normalisation. -/
def toLowerChar (c : Char) : Char :=
  if 'A' ≤ c ∧ c ≤ 'Z' then Char.ofNat (c.toNat + 32) else c

/-- Source `isVowel` closure inside `maskConstructor`: membership in the
five-vowel table. -/
def isVowel (r : Char) : Bool :=
  r == 'a' || r == 'e' || r == 'i' || r == 'o' || r == 'u'

/-- Body of the per-letter classification in source `maskConstructor`: the
switch over the position of a letter `y`, everything else by `isVowel`. -/
def maskBit (runes : List Char) (i : Nat) (letter : Char) : Bool :=
  if letter = 'y' then
    if runes.length = 1 then true
    else if i = 0 then ! isVowel (runes.getD (i + 1) ' ')
    else if i = runes.length - 1 then ! isVowel (runes.getD (i - 1) ' ')
    else if isVowel (runes.getD (i - 1) ' ') = isVowel (runes.getD (i + 1) ' ') then
      ! (isVowel (runes.getD (i - 1) ' ') && isVowel (runes.getD (i + 1) ' '))
    else isVowel (runes.getD (i + 1) ' ')
  else isVowel letter

/-- Source `maskStruct`: holder of the vowel mask. -/
structure maskStruct where
  letterMask : List Bool

/-- Source `maskConstructor`: lower-case the name and classify each position. -/
def maskConstructor (s : List Char) : maskStruct :=
  let runes := s.map toLowerChar
  ⟨(List.range runes.length).map (fun i => maskBit runes i (runes.getD i ' '))⟩

/-- Source `maskStruct.Full`: a mask of all-true entries. -/
def maskStruct.Full (m : maskStruct) : List Bool :=
  List.replicate m.letterMask.length true

/-- Source `maskStruct.Vowels`: the stored mask itself. -/
def maskStruct.Vowels (m : maskStruct) : List Bool :=
  m.letterMask

/-- Source `maskStruct.Consonants`: pointwise negation of the vowel mask. -/
def maskStruct.Consonants (m : maskStruct) : List Bool :=
  m.letterMask.map (fun b => ! b)

/-- Source `letterValue`. `Letter` is a string in Go (it holds multi-digit
numbers in date breakdowns), hence `List Char`. -/
structure letterValue where
  Letter : List Char
  Value : Nat
deriving DecidableEq

/-- Source `Breakdown`. -/
structure Breakdown where
  Value : Nat
  ReduceSteps : List Nat
  LetterValues : List letterValue
deriving DecidableEq

/-- Source `NumerologicalResult`. -/
structure NumerologicalResult where
  Value : Nat
  ReduceSteps : List Nat
  Breakdown : List Breakdown
deriving DecidableEq

/-- Go `strings.TrimSpace` restricted to the ASCII range produced by ToAscii. -/
def isSpaceChar (c : Char) : Bool :=
  c = ' ' || c = '\t' || c = '\n' || c = '\x0b' || c = '\x0c' || c = '\r'

/-- Go `strings.TrimSpace` on an ASCII string. -/
def trimSpace (s : List Char) : List Char :=
  ((s.dropWhile isSpaceChar).reverse.dropWhile isSpaceChar).reverse

/-- Source `numerologyCalculation`: assign each in-system, unmasked letter its
value, sum, and reduce when asked. -/
def numerologyCalculation (s : List Char) (masterNumbers : List Nat)
    (numberSystem : NumberSystem) (reduce : Bool) (mask : List Bool) : Breakdown :=
  let t := trimSpace s
  let nameSteps := (List.range t.length).map (fun i =>
    let letter := t.getD i ' '
    match numberSystem.NumberMapping (toLowerChar letter) with
    | some letterVal =>
        if mask.getD i false then { Letter := [letter], Value := letterVal }
        else { Letter := [letter], Value := 0 }
    | none => { Letter := [letter], Value := 0 })
  let totalValue := (nameSteps.map (fun lv => lv.Value)).sum
  let reduceSteps := if reduce then reduceNumbers totalValue masterNumbers [] else [totalValue]
  { Value := reduceSteps.getLastD 0, ReduceSteps := reduceSteps, LetterValues := nameSteps }

/-- Segment splitter of source `calculateCoreNumber`: the manual scan for
spaces over `name + " "`, keeping the mask aligned with the name (modelled by
zipping name and mask) and skipping zero-length segments. -/
def splitOnSpace (pairs : List (Char × Bool)) (acc : List (Char × Bool)) :
    List (List (Char × Bool)) :=
  match pairs with
  | [] => if acc.isEmpty then [] else [acc.reverse]
  | p :: rest =>
    if p.1 = ' ' then
      if acc.isEmpty then splitOnSpace rest []
      else acc.reverse :: splitOnSpace rest []
    else splitOnSpace rest (p :: acc)

/-- Source `calculateCoreNumber`: per-segment calculation, then one more
reduction of the summed segment values, except that a single segment under
word-reduction keeps its own step sequence. -/
def calculateCoreNumber (name : List Char) (masterNumbers : List Nat)
    (reduceWords : Bool) (numberSystem : NumberSystem) (mask : List Bool) :
    NumerologicalResult :=
  let segs := splitOnSpace (name.zip mask) []
  let breakdown := segs.map (fun seg =>
    numerologyCalculation (seg.map Prod.fst) masterNumbers numberSystem reduceWords
      (seg.map Prod.snd))
  let totalValue := (breakdown.map (fun b => b.Value)).sum
  let reduceSteps :=
    if breakdown.length = 1 ∧ reduceWords = true then
      (breakdown.headD { Value := 0, ReduceSteps := [], LetterValues := [] }).ReduceSteps
    else reduceNumbers totalValue masterNumbers []
  { Value := reduceSteps.getLastD 0, ReduceSteps := reduceSteps, Breakdown := breakdown }

/-- Decimal representation of a number as characters, as Go `strconv.Itoa`
produces for the non-negative values that occur in date breakdowns. -/
def natRepr (n : Nat) : List Char :=
  (splitNumber n).map (fun d => Char.ofNat (48 + d))

/-- Source `letterValuesFromNumber` (calculateDates): a master number stays one
entry, anything else is split into digits. -/
def letterValuesFromNumber (n : Nat) (masterNumbers : List Nat) : List letterValue :=
  if isMasterNumber n masterNumbers then [{ Letter := natRepr n, Value := n }]
  else (splitNumber n).map (fun i => { Letter := natRepr i, Value := i })

/-- Source `calculateDate`: reduce year, month and day individually with the
caller's master numbers, sum the final values, and reduce the sum — with the
master numbers again for a life-path calculation, with none for an event. The
date is modelled by its year, month and day components. -/
def calculateDate (year month day : Nat) (masterNumbers : List Nat)
    (lifePath : Bool) : NumerologicalResult :=
  let breakdown := [year, month, day].map (fun val =>
    let reduceSteps := reduceNumbers val masterNumbers []
    { Value := reduceSteps.getLastD 0, ReduceSteps := reduceSteps,
      LetterValues := letterValuesFromNumber val masterNumbers })
  let totalValue := (breakdown.map (fun b => b.Value)).sum
  let reduceSteps :=
    if lifePath then reduceNumbers totalValue masterNumbers []
    else reduceNumbers totalValue [] []
  { Value := reduceSteps.getLastD 0, ReduceSteps := reduceSteps, Breakdown := breakdown }

/-- Source `DateNumerology.Event`: `calculateDate` with `lifePath = false`. -/
def DateNumerologyEvent (year month day : Nat) (masterNumbers : List Nat) :
    NumerologicalResult :=
  calculateDate year month day masterNumbers false

/-- Source `DateNumerology.LifePath`: `calculateDate` with `lifePath = true`. -/
def DateNumerologyLifePath (year month day : Nat) (masterNumbers : List Nat) :
    NumerologicalResult :=
  calculateDate year month day masterNumbers true

/-- Replace the value bound to `key` in an association list, as a Go map
update on a map whose key set is fixed at initialisation. -/
def assocUpdate (counts : List (Nat × Nat)) (key newVal : Nat) : List (Nat × Nat) :=
  counts.map (fun p => if p.1 = key then (p.1, newVal) else p)

/-- Source `countNumerologicalNumbers`: start a counter at zero for every
valid number of the system, then bump the counter of each letter value
(letters mapping to no counter are collected as unknown characters, with the
set modelled as a duplicate-free list). Returns (counts, maxCount, unknowns). -/
def countNumerologicalNumbers (name : List Char) (numberSystem : NumberSystem) :
    List (Nat × Nat) × Nat × List Char :=
  let init := numberSystem.ValidNumbers.map (fun i => (i, 0))
  name.foldl
    (fun acc c =>
      let counts := acc.1
      let maxCount := acc.2.1
      let unknownChars := acc.2.2
      let num := (numberSystem.NumberMapping (toLowerChar c)).getD 0
      match counts.lookup num with
      | some cur =>
          (assocUpdate counts num (cur + 1),
            (if cur + 1 > maxCount then cur + 1 else maxCount),
            unknownChars)
      | none =>
          (counts, maxCount,
            if unknownChars.contains (toLowerChar c) then unknownChars
            else unknownChars ++ [toLowerChar c]))
    (init, 0, [])

/-- SQL predicates produced by source `queryKarmicLessons`. A column is the
pair of the number-system letter and the digit (Go builds the string name, e.g.
`p3`); `countLe` is `"col <= ?" bound` and `countPlusPos` is
`"col + ? > 0" known`. -/
inductive KarmicQuery where
  | countLe (column : Char × Nat) (bound : Int)
  | countPlusPos (column : Char × Nat) (known : Nat)
deriving DecidableEq

/-- Truth of a karmic-lesson predicate on a table row, the row given by its
per-digit count columns (unsigned in the schema, hence `Nat → Nat`). -/
def KarmicQuery.holds (tableCounts : Nat → Nat) : KarmicQuery → Bool
  | .countLe column bound => decide (((tableCounts column.2 : Int)) ≤ bound)
  | .countPlusPos column known => decide (0 < (tableCounts column.2 : Int) + (known : Int))

/-- Source `queryKarmicLessons`: for each entry of the constraint list attach
one predicate — `col <= 0 - knownCount` for a required karmic lesson (positive
entry), `col + knownCount > 0` for an excluded one (negative entry); an empty
list attaches nothing. -/
def queryKarmicLessons (name : List Char) (n : List Int)
    (numberSystem : NumberSystem) : List KarmicQuery :=
  if n.isEmpty then []
  else
    let colPrefix := toLowerChar (numberSystem.Name.headD 'p')
    let currentCount := (countNumerologicalNumbers name numberSystem).1
    n.map (fun i =>
      if i < 0 then
        KarmicQuery.countPlusPos (colPrefix, (-i).toNat)
          ((currentCount.lookup (-i).toNat).getD 0)
      else
        KarmicQuery.countLe (colPrefix, i.toNat)
          (0 - (((currentCount.lookup i.toNat).getD 0 : Nat) : Int)))

/-- Inner loop of source `generateLookupNums` over the reduction steps of a
candidate total: a step in the excluded list rejects at once, a step in the
acceptable list accepts at once, otherwise the scan continues with the
incoming `noMatch` flag. -/
def matchScan (positiveNums negativeNums : List Nat) :
    List Nat → Bool → Bool
  | [], noMatch => noMatch
  | v :: rest, noMatch =>
    if negativeNums.contains v then true
    else if positiveNums.contains v then false
    else matchScan positiveNums negativeNums rest noMatch

/-- Source `generateLookupNums`: split the target list into acceptable
(non-negative) and excluded (negated negative) values, then keep each
candidate `i` with `minSearchNumber + i ≤ maxSearchNumber` whose hypothetical
reduced total survives the scan; the candidate enters the total as its final
reduced value under word-reduction and unreduced otherwise. -/
def generateLookupNums (minSearchNumber maxSearchNumber : Nat)
    (numerologyNums : List Int) (masterNumbers : List Nat)
    (reduceWords : Bool) : List Nat :=
  let positiveNums := (numerologyNums.filter (fun n => 0 ≤ n)).map Int.toNat
  let negativeNums := (numerologyNums.filter (fun n => n < 0)).map (fun n => (-n).toNat)
  (List.range' 1 (maxSearchNumber - minSearchNumber)).filter (fun i =>
    let reducedI := reduceNumbers i masterNumbers []
    let idx := if reduceWords then reducedI.length - 1 else 0
    let validNum :=
      reduceNumbers (minSearchNumber + reducedI.getD idx 0) masterNumbers []
    ! matchScan positiveNums negativeNums validNum (! positiveNums.isEmpty))

/-- Logical reading of a successful scan: some step is preceded only by steps
in neither list and itself lies in the acceptable list (and not the excluded
one), or no step lies in either list and the acceptable list is empty. -/
def scanAccepts (steps positiveNums negativeNums : List Nat) : Prop :=
  (∃ l₁ x l₂, steps = l₁ ++ x :: l₂ ∧
      (∀ y ∈ l₁, y ∉ positiveNums ∧ y ∉ negativeNums) ∧
      x ∈ positiveNums ∧ x ∉ negativeNums) ∨
  (positiveNums = [] ∧ ∀ y ∈ steps, y ∉ positiveNums ∧ y ∉ negativeNums)

/-- Transcription of claim C2, for comparison with `generateLookupNums`: the
acceptance test is stated on the single final reduced total only. -/
def specLookupAccept (minSearchNumber maxSearchNumber : Nat)
    (numerologyNums : List Int) (masterNumbers : List Nat)
    (reduceWords : Bool) (i : Nat) : Prop :=
  let positiveNums := (numerologyNums.filter (fun n => 0 ≤ n)).map Int.toNat
  let negativeNums := (numerologyNums.filter (fun n => n < 0)).map (fun n => (-n).toNat)
  let r := if reduceWords then (reduceNumbers i masterNumbers []).getLastD 0 else i
  let reducedTotal := (reduceNumbers (minSearchNumber + r) masterNumbers []).getLastD 0
  1 ≤ i ∧ i ≤ maxSearchNumber - minSearchNumber ∧
    reducedTotal ∉ negativeNums ∧
    (positiveNums ≠ [] → reducedTotal ∈ positiveNums)

/-- Validation errors of source `NameNumerology.Search`. -/
inductive SearchError where
  | missingQuestionMark
  | tooManyQuestionMarks
deriving DecidableEq

/-- Outcome of the dispatch in source `NameNumerology.Search`:
`databaseSearch` marks the single case that reaches `nameSearch` (and with it
any database access or predicate construction). -/
inductive SearchOutcome where
  | failed (e : SearchError)
  | databaseSearch
deriving DecidableEq

/-- Source `NameNumerology.Search`: count the question marks of the template
and either fail the validation or proceed to the database search. -/
def NameNumerologySearch (name : List Char) : SearchOutcome :=
  match name.count '?' with
  | 0 => SearchOutcome.failed SearchError.missingQuestionMark
  | 1 => SearchOutcome.databaseSearch
  | _ => SearchOutcome.failed SearchError.tooManyQuestionMarks

/-- Result-assembling loop of source `nameSearch` (lines 393-406): rows are
`(id, name)`; with `total` the number of fetched rows, every row is kept while
`total ≤ count` or the index is below `total - 1`, and a dropped row leaves
its id as the continuation offset (the loop overwrites, keeping the last). -/
def pageLoop (count total : Nat) :
    Nat → List (Int × List Char) → List (List Char) → Int →
    List (List Char) × Int
  | _, [], names, offset => (names, offset)
  | i, r :: rest, names, offset =>
    if total ≤ count ∨ i < total - 1 then
      pageLoop count total (i + 1) rest (names ++ [r.2]) offset
    else
      pageLoop count total (i + 1) rest names r.1

/-- Paging-relevant outcome of a `nameSearch` call: the row limit sent to the
database, the returned names, and the continuation offset. -/
structure NameSearchPage where
  limit : Nat
  names : List (List Char)
  offset : Int
deriving DecidableEq

/-- Paging logic of source `nameSearch`: a zero Count defaults to 25, the
query limit is Count + 1 (the probe row), and under random sort a non-zero
probe offset is replaced by request offset + Count. `rows` are the rows the
database would return in query order; the limit is applied to them. -/
def nameSearchPaging (countOpt : Nat) (sortIsRandom : Bool) (requestOffset : Nat)
    (rows : List (Int × List Char)) : NameSearchPage :=
  let count := if countOpt = 0 then 25 else countOpt
  let fetched := rows.take (count + 1)
  let step := pageLoop count fetched.length 0 fetched [] 0
  let offset :=
    if 0 < step.2 ∧ sortIsRandom = true then ((requestOffset : Int) + (count : Int))
    else step.2
  { limit := count + 1, names := step.1, offset := offset }

/- ===================== Theorems ===================== -/

/- Digit-sum bounds underlying termination of the reducer. -/

theorem splitNumberAux_sum_le (n : Nat) :
    ∀ acc : List Nat, (splitNumberAux n acc).sum ≤ n + acc.sum := by
  induction n using Nat.strong_induction_on with
  | _ n ih =>
    intro acc
    rw [splitNumberAux]
    split
    · simp
    · have := ih (n / 10) (Nat.div_lt_self (by omega) (by omega)) (n % 10 :: acc)
      simp only [List.sum_cons] at this
      omega

theorem splitNumber_sum_lt (n : Nat) (h : 10 ≤ n) : (splitNumber n).sum < n := by
  rw [splitNumber, splitNumberAux]
  split
  · omega
  · have := splitNumberAux_sum_le (n / 10) [n % 10]
    simp only [List.sum_cons, List.sum_nil] at this
    omega

/- Structural lemmas about the reducer. -/

theorem reduceNumbers_append (n : Nat) (m : List Nat) : ∀ s : List Nat,
    reduceNumbers n m s = s ++ reduceNumbers n m [] := by
  induction n using Nat.strong_induction_on with
  | _ n ih =>
    intro s
    by_cases h1 : n < 10
    · rw [reduceNumbers.eq_def, reduceNumbers.eq_def]
      simp [h1]
    · by_cases h2 : isMasterNumber n m
      · rw [reduceNumbers.eq_def, reduceNumbers.eq_def]
        simp [h1, h2]
      · rw [reduceNumbers.eq_def, reduceNumbers.eq_def]
        simp only [h1, h2, if_false, Bool.false_eq_true]
        rw [ih _ (splitNumber_sum_lt n (by omega)) (s ++ [n]),
            ih _ (splitNumber_sum_lt n (by omega)) ([] ++ [n])]
        simp

theorem reduceNumbers_cons (n : Nat) (m : List Nat) :
    ∃ t : List Nat, reduceNumbers n m [] = n :: t := by
  rw [reduceNumbers.eq_def]
  by_cases h1 : n < 10
  · exact ⟨[], by simp [h1]⟩
  · by_cases h2 : isMasterNumber n m
    · exact ⟨[], by simp [h1, h2]⟩
    · refine ⟨reduceNumbers (splitNumber n).sum m [], ?_⟩
      simp only [h1, h2, if_false, Bool.false_eq_true]
      rw [reduceNumbers_append]
      simp

theorem reduceNumbers_ne_nil (n : Nat) (m : List Nat) (s : List Nat) :
    reduceNumbers n m s ≠ [] := by
  rw [reduceNumbers_append]
  obtain ⟨t, ht⟩ := reduceNumbers_cons n m
  rw [ht]
  simp

theorem reduceNumbers_head (n : Nat) (m : List Nat) :
    (reduceNumbers n m []).headD 0 = n := by
  obtain ⟨t, ht⟩ := reduceNumbers_cons n m
  rw [ht]
  rfl

theorem isMasterNumber_iff (v : Nat) (l : List Nat) :
    isMasterNumber v l = true ↔ v ∈ l := by
  simp [isMasterNumber]

theorem reduceNumbers_last (n : Nat) (m : List Nat) :
    (reduceNumbers n m []).getLastD 0 < 10 ∨ (reduceNumbers n m []).getLastD 0 ∈ m := by
  induction n using Nat.strong_induction_on with
  | _ n ih =>
    by_cases h1 : n < 10
    · rw [reduceNumbers.eq_def]
      simp [h1]
    · by_cases h2 : isMasterNumber n m
      · rw [reduceNumbers.eq_def]
        simp [h1, h2]
        exact (isMasterNumber_iff n m).mp h2
      · rw [reduceNumbers.eq_def]
        simp only [h1, h2, if_false, Bool.false_eq_true]
        rw [reduceNumbers_append]
        have hne := reduceNumbers_ne_nil (splitNumber n).sum m ([] : List Nat)
        rw [List.getLastD_eq_getLast?, List.getLast?_append_of_ne_nil _ hne,
            ← List.getLastD_eq_getLast?]
        exact ih _ (splitNumber_sum_lt n (by omega))

theorem reduceNumbers_fixed (n : Nat) (m : List Nat)
    (h : n < 10 ∨ n ∈ m) : reduceNumbers n m [] = [n] := by
  rw [reduceNumbers.eq_def]
  by_cases h1 : n < 10
  · simp [h1]
  · have h2 : isMasterNumber n m = true := (isMasterNumber_iff n m).mpr (h.resolve_left h1)
    simp [h1, h2]

/-- C1, counterexample: the claim asserts that for every n ≥ 10 not in the
master-number list the final element of the reduction is a single digit
(< 10). For n = 29 with master numbers [11] the reduction is [29, 11]: the
starting value is at least 10 and is not a master number, yet the final
element 11 is not below 10 (the chain stops at a master number reached while
reducing). -/
theorem reduceNumbers_c1_counterexample :
    10 ≤ 29 ∧ (29 : Nat) ∉ [11] ∧ reduceNumbers 29 [11] [] = [29, 11] ∧
      ¬ (reduceNumbers 29 [11] []).getLastD 0 < 10 := by
  have h : reduceNumbers 29 [11] [] = [29, 11] := by
    simp [reduceNumbers, splitNumber, splitNumberAux, isMasterNumber]
  refine ⟨by omega, by decide, h, ?_⟩
  rw [h]
  decide

/-- C1 (amended): for every n and master-number list, `reduceNumbers n ms []`
is non-empty, starts with n, and ends in an element that is below 10 or a
member of the master-number list; for n < 10 the result is exactly [n], and
likewise for n a member of the list. For n ≥ 10 not in the list the final
element is a single digit or a master number (not necessarily a single digit,
as the original claim said). -/
theorem reduceNumbers_c1_invariant (n : Nat) (masterNumbers : List Nat) :
    reduceNumbers n masterNumbers [] ≠ [] ∧
    (reduceNumbers n masterNumbers []).headD 0 = n ∧
    ((reduceNumbers n masterNumbers []).getLastD 0 < 10 ∨
      (reduceNumbers n masterNumbers []).getLastD 0 ∈ masterNumbers) ∧
    (n < 10 → reduceNumbers n masterNumbers [] = [n]) ∧
    (n ∈ masterNumbers → reduceNumbers n masterNumbers [] = [n]) ∧
    (10 ≤ n → n ∉ masterNumbers →
      ((reduceNumbers n masterNumbers []).getLastD 0 < 10 ∨
        (reduceNumbers n masterNumbers []).getLastD 0 ∈ masterNumbers)) := by
  refine ⟨reduceNumbers_ne_nil n masterNumbers [], reduceNumbers_head n masterNumbers,
    reduceNumbers_last n masterNumbers, ?_, ?_, ?_⟩
  · intro h
    exact reduceNumbers_fixed n masterNumbers (Or.inl h)
  · intro h
    exact reduceNumbers_fixed n masterNumbers (Or.inr h)
  · intro _ _
    exact reduceNumbers_last n masterNumbers

/-- C1, witness: the amended invariant applied at concrete inputs, with its
hypotheses discharged. -/
theorem reduceNumbers_c1_invariant_witness :
    reduceNumbers 11 [11, 22] [] = [11] ∧
    reduceNumbers 7 [11, 22] [] = [7] ∧
    ((reduceNumbers 47 [22] []).getLastD 0 < 10 ∨
      (reduceNumbers 47 [22] []).getLastD 0 ∈ [22]) :=
  ⟨(reduceNumbers_c1_invariant 11 [11, 22]).2.2.2.2.1 (by decide),
   (reduceNumbers_c1_invariant 7 [11, 22]).2.2.2.1 (by decide),
   (reduceNumbers_c1_invariant 47 [22]).2.2.2.2.2 (by decide) (by decide)⟩

/- Lemmas about the letter classifier. -/

theorem isVowel_iff (c : Char) :
    isVowel c = true ↔ c ∈ ['a', 'e', 'i', 'o', 'u'] := by
  simp [isVowel]
  tauto

theorem maskConstructor_getD (s : List Char) (i : Nat) (hi : i < s.length) :
    (maskConstructor s).letterMask.getD i false
      = maskBit (s.map toLowerChar) i ((s.map toLowerChar).getD i ' ') := by
  have hlen : i < ((List.range (s.map toLowerChar).length).map
      (fun j => maskBit (s.map toLowerChar) j ((s.map toLowerChar).getD j ' '))).length := by
    simpa using hi
  simp only [maskConstructor]
  rw [List.getD_eq_getElem _ _ hlen, List.getElem_map, List.getElem_range]

theorem not_isVowel_iff (c : Char) :
    (! isVowel c) = true ↔ c ∉ ['a', 'e', 'i', 'o', 'u'] := by
  constructor
  · intro h hm
    have := (isVowel_iff c).mpr hm
    simp [this] at h
  · intro h
    cases hv : isVowel c
    · simp
    · exact absurd ((isVowel_iff c).mp hv) h

/-- C5: the vowel mask has one entry per character, the consonant mask is its
pointwise negation, and their exclusive-or is all-true for any non-empty
name. -/
theorem maskConstructor_c5 (s : List Char) (h : s ≠ []) :
    (maskConstructor s).Vowels.length = s.length ∧
    (maskConstructor s).Consonants = (maskConstructor s).Vowels.map (fun b => ! b) ∧
    ∀ i, i < s.length →
      xor ((maskConstructor s).Vowels.getD i false)
          ((maskConstructor s).Consonants.getD i false) = true := by
  refine ⟨by simp [maskConstructor, maskStruct.Vowels], rfl, ?_⟩
  intro i hi
  have hlen : (maskConstructor s).letterMask.length = s.length := by
    simp [maskConstructor]
  have hi3 : i < (maskConstructor s).letterMask.length := by omega
  have hi2 : i < ((maskConstructor s).letterMask.map (fun b => ! b)).length := by
    simpa using hi3
  have hcons : (maskConstructor s).Consonants.getD i false
      = ! ((maskConstructor s).Vowels.getD i false) := by
    simp only [maskStruct.Consonants, maskStruct.Vowels]
    rw [List.getD_eq_getElem _ _ hi2, List.getElem_map, List.getD_eq_getElem _ _ hi3]
  rw [hcons]
  cases hb : (maskConstructor s).Vowels.getD i false <;> simp [hb]

/-- C5, witness: the mask invariants at the concrete name "yo". -/
theorem maskConstructor_c5_witness :
    (maskConstructor ['y', 'o']).Vowels.length = 2 ∧
    xor ((maskConstructor ['y', 'o']).Vowels.getD 0 false)
        ((maskConstructor ['y', 'o']).Consonants.getD 0 false) = true :=
  ⟨(maskConstructor_c5 ['y', 'o'] (by decide)).1,
   (maskConstructor_c5 ['y', 'o'] (by decide)).2.2 0 (by decide)⟩

/-- C4: the letter classifier on a lowercase-normalized name marks every
non-y position as a vowel exactly when its letter is one of a/e/i/o/u, and
rules y by position — single-character names make y a vowel; a leading y is a
vowel exactly when the next letter is not one of a/e/i/o/u; a trailing y is a
vowel exactly when the previous letter is not one of a/e/i/o/u; between two
neighbours of the same class, y is a vowel exactly when both are consonants;
between a vowel and a consonant, y is a vowel exactly when the letter
following it is a vowel. -/
theorem maskConstructor_c4 (name : List Char) (hlow : name.map toLowerChar = name)
    (i : Nat) (hi : i < name.length) :
    (name.getD i ' ' ≠ 'y' →
      ((maskConstructor name).Vowels.getD i false = true ↔
        name.getD i ' ' ∈ ['a', 'e', 'i', 'o', 'u'])) ∧
    (name.getD i ' ' = 'y' →
      (name.length = 1 → (maskConstructor name).Vowels.getD i false = true) ∧
      (1 < name.length → i = 0 →
        ((maskConstructor name).Vowels.getD i false = true ↔
          name.getD 1 ' ' ∉ ['a', 'e', 'i', 'o', 'u'])) ∧
      (0 < i → i = name.length - 1 →
        ((maskConstructor name).Vowels.getD i false = true ↔
          name.getD (i - 1) ' ' ∉ ['a', 'e', 'i', 'o', 'u'])) ∧
      (0 < i → i < name.length - 1 →
        ((name.getD (i - 1) ' ' ∈ ['a', 'e', 'i', 'o', 'u']) ↔
          (name.getD (i + 1) ' ' ∈ ['a', 'e', 'i', 'o', 'u'])) →
        ((maskConstructor name).Vowels.getD i false = true ↔
          (name.getD (i - 1) ' ' ∉ ['a', 'e', 'i', 'o', 'u'] ∧
            name.getD (i + 1) ' ' ∉ ['a', 'e', 'i', 'o', 'u']))) ∧
      (0 < i → i < name.length - 1 →
        ¬ ((name.getD (i - 1) ' ' ∈ ['a', 'e', 'i', 'o', 'u']) ↔
          (name.getD (i + 1) ' ' ∈ ['a', 'e', 'i', 'o', 'u'])) →
        ((maskConstructor name).Vowels.getD i false = true ↔
          name.getD (i + 1) ' ' ∈ ['a', 'e', 'i', 'o', 'u']))) := by
  have hmask0 : (maskConstructor name).Vowels.getD i false
      = maskBit name i (name.getD i ' ') := by
    have h0 := maskConstructor_getD name i hi
    rw [hlow] at h0
    exact h0
  constructor
  · intro hny
    rw [hmask0, maskBit, if_neg hny]
    exact isVowel_iff (name.getD i ' ')
  · intro hy
    have hmask : (maskConstructor name).Vowels.getD i false = maskBit name i 'y' := by
      rw [hmask0, hy]
    refine ⟨?_, ?_, ?_, ?_, ?_⟩
    · intro h1
      rw [hmask, maskBit]
      simp [h1]
    · intro hlen hi0
      subst hi0
      have hne1 : name.length ≠ 1 := by omega
      rw [hmask, maskBit, if_pos rfl, if_neg hne1, if_pos rfl]
      exact not_isVowel_iff (name.getD 1 ' ')
    · intro hi0 hil
      have hne1 : name.length ≠ 1 := by omega
      have hiz : i ≠ 0 := by omega
      rw [hmask, maskBit, if_pos rfl, if_neg hne1, if_neg hiz, if_pos hil]
      exact not_isVowel_iff (name.getD (i - 1) ' ')
    · intro hi0 hil hsame
      have hne1 : name.length ≠ 1 := by omega
      have hiz : i ≠ 0 := by omega
      have hine : i ≠ name.length - 1 := by omega
      have hBool : isVowel (name.getD (i - 1) ' ') = isVowel (name.getD (i + 1) ' ') := by
        rw [← isVowel_iff, ← isVowel_iff] at hsame
        cases hp : isVowel (name.getD (i - 1) ' ') <;>
          cases hq : isVowel (name.getD (i + 1) ' ') <;> simp_all
      rw [hmask, maskBit, if_pos rfl, if_neg hne1, if_neg hiz, if_neg hine, if_pos hBool]
      rw [← isVowel_iff, ← isVowel_iff] at hsame ⊢
      cases hp : isVowel (name.getD (i - 1) ' ') <;>
        cases hq : isVowel (name.getD (i + 1) ' ') <;> simp_all
    · intro hi0 hil hdiff
      have hne1 : name.length ≠ 1 := by omega
      have hiz : i ≠ 0 := by omega
      have hine : i ≠ name.length - 1 := by omega
      have hBool : isVowel (name.getD (i - 1) ' ') ≠ isVowel (name.getD (i + 1) ' ') := by
        rw [← isVowel_iff, ← isVowel_iff] at hdiff
        cases hp : isVowel (name.getD (i - 1) ' ') <;>
          cases hq : isVowel (name.getD (i + 1) ' ') <;> simp_all
      rw [hmask, maskBit, if_pos rfl, if_neg hne1, if_neg hiz, if_neg hine, if_neg hBool]
      exact isVowel_iff (name.getD (i + 1) ' ')

/-- C4, witness: in "yvonne" the leading y (followed by the consonant v) is a
vowel, the non-y letter o is a vowel, and the non-y letter v is a
consonant. -/
theorem maskConstructor_c4_witness :
    (maskConstructor ['y', 'v', 'o', 'n', 'n', 'e']).Vowels.getD 0 false = true ∧
    (maskConstructor ['y', 'v', 'o', 'n', 'n', 'e']).Vowels.getD 2 false = true ∧
    (maskConstructor ['y', 'v', 'o', 'n', 'n', 'e']).Vowels.getD 1 false = false := by
  refine ⟨((((maskConstructor_c4 ['y', 'v', 'o', 'n', 'n', 'e'] (by decide) 0
      (by decide)).2 (by decide)).2.1) (by decide) rfl).mpr (by decide), ?_, ?_⟩
  · exact ((maskConstructor_c4 ['y', 'v', 'o', 'n', 'n', 'e'] (by decide) 2
      (by decide)).1 (by decide)).mpr (by decide)
  · have hv := (maskConstructor_c4 ['y', 'v', 'o', 'n', 'n', 'e'] (by decide) 1
      (by decide)).1 (by decide)
    cases hb : (maskConstructor ['y', 'v', 'o', 'n', 'n', 'e']).Vowels.getD 1 false
    · rfl
    · exact absurd (hv.mp hb) (by decide)

/- Lemmas about the scorer. -/

theorem numerologyCalculation_value (s : List Char) (m : List Nat)
    (ns : NumberSystem) (red : Bool) (mask : List Bool) :
    (numerologyCalculation s m ns red mask).Value
      = (numerologyCalculation s m ns red mask).ReduceSteps.getLastD 0 := rfl

theorem numerologyCalculation_steps_true (s : List Char) (m : List Nat)
    (ns : NumberSystem) (mask : List Bool) :
    ∃ tv, (numerologyCalculation s m ns true mask).ReduceSteps
      = reduceNumbers tv m [] :=
  ⟨_, rfl⟩

theorem numerologyCalculation_steps_ne_nil (s : List Char) (m : List Nat)
    (ns : NumberSystem) (red : Bool) (mask : List Bool) :
    (numerologyCalculation s m ns red mask).ReduceSteps ≠ [] := by
  cases red with
  | true =>
    obtain ⟨tv, htv⟩ := numerologyCalculation_steps_true s m ns mask
    rw [htv]
    exact reduceNumbers_ne_nil tv m []
  | false => simp [numerologyCalculation]

theorem calculateCoreNumber_breakdown_mem (name : List Char) (masterNumbers : List Nat)
    (reduceWords : Bool) (ns : NumberSystem) (mask : List Bool) :
    ∀ b ∈ (calculateCoreNumber name masterNumbers reduceWords ns mask).Breakdown,
      b.ReduceSteps ≠ [] ∧ b.Value = b.ReduceSteps.getLastD 0 := by
  intro b hb
  simp only [calculateCoreNumber] at hb
  obtain ⟨seg, _, hfs⟩ := List.mem_map.mp hb
  rw [← hfs]
  exact ⟨numerologyCalculation_steps_ne_nil _ _ _ _ _,
    numerologyCalculation_value _ _ _ _ _⟩

theorem calculateCoreNumber_steps_ne_nil (name : List Char) (masterNumbers : List Nat)
    (reduceWords : Bool) (ns : NumberSystem) (mask : List Bool) :
    (calculateCoreNumber name masterNumbers reduceWords ns mask).ReduceSteps ≠ [] := by
  simp only [calculateCoreNumber]
  split
  · rename_i hcond
    obtain ⟨a, ha⟩ := List.length_eq_one.mp hcond.1
    rw [ha, List.headD_cons]
    have hmem : a ∈ (splitOnSpace (name.zip mask) []).map (fun seg =>
        numerologyCalculation (seg.map Prod.fst) masterNumbers ns reduceWords
          (seg.map Prod.snd)) := by
      rw [ha]
      exact List.mem_singleton_self a
    obtain ⟨seg, _, hfs⟩ := List.mem_map.mp hmem
    rw [← hfs]
    exact numerologyCalculation_steps_ne_nil _ _ _ _ _
  · exact reduceNumbers_ne_nil _ _ _

/-- C6: for every Breakdown produced by a name calculation and every
NumerologicalResult produced by a name or date calculation, the Value field
equals the last element of the ReduceSteps sequence and ReduceSteps is
non-empty. -/
theorem results_c6 (s name : List Char) (masterNumbers : List Nat)
    (ns : NumberSystem) (red reduceWords lifePath : Bool) (mask : List Bool)
    (year month day : Nat) :
    ((numerologyCalculation s masterNumbers ns red mask).ReduceSteps ≠ [] ∧
      (numerologyCalculation s masterNumbers ns red mask).Value
        = (numerologyCalculation s masterNumbers ns red mask).ReduceSteps.getLastD 0) ∧
    ((calculateCoreNumber name masterNumbers reduceWords ns mask).ReduceSteps ≠ [] ∧
      (calculateCoreNumber name masterNumbers reduceWords ns mask).Value
        = (calculateCoreNumber name masterNumbers reduceWords ns
            mask).ReduceSteps.getLastD 0 ∧
      ∀ b ∈ (calculateCoreNumber name masterNumbers reduceWords ns mask).Breakdown,
        b.ReduceSteps ≠ [] ∧ b.Value = b.ReduceSteps.getLastD 0) ∧
    ((calculateDate year month day masterNumbers lifePath).ReduceSteps ≠ [] ∧
      (calculateDate year month day masterNumbers lifePath).Value
        = (calculateDate year month day masterNumbers lifePath).ReduceSteps.getLastD 0) := by
  refine ⟨⟨numerologyCalculation_steps_ne_nil s masterNumbers ns red mask,
      numerologyCalculation_value s masterNumbers ns red mask⟩,
    ⟨calculateCoreNumber_steps_ne_nil name masterNumbers reduceWords ns mask, rfl,
      calculateCoreNumber_breakdown_mem name masterNumbers reduceWords ns mask⟩,
    ⟨?_, rfl⟩⟩
  cases lifePath with
  | true =>
    simp only [calculateDate]
    exact reduceNumbers_ne_nil _ _ _
  | false =>
    simp only [calculateDate]
    exact reduceNumbers_ne_nil _ _ _

/-- C6, witness: the invariant at a concrete name and date, with the
per-breakdown statement instantiated at the single breakdown of the name. -/
theorem results_c6_witness :
    (calculateCoreNumber ['a', 'b'] [11] true Pythagorean [true, true]).ReduceSteps ≠ [] ∧
    (numerologyCalculation ['a', 'b'] [11] Pythagorean true [true, true]).ReduceSteps ≠ [] ∧
    (numerologyCalculation ['a', 'b'] [11] Pythagorean true [true, true]).Value
      = (numerologyCalculation ['a', 'b'] [11] Pythagorean true
          [true, true]).ReduceSteps.getLastD 0 :=
  ⟨(results_c6 ['a'] ['a', 'b'] [11] Pythagorean true true true [true, true]
      2020 3 14).2.1.1,
   ((results_c6 ['a'] ['a', 'b'] [11] Pythagorean true true true [true, true]
      2020 3 14).2.1.2.2
      (numerologyCalculation ['a', 'b'] [11] Pythagorean true [true, true])
      (by simp [calculateCoreNumber, splitOnSpace])).1,
   ((results_c6 ['a'] ['a', 'b'] [11] Pythagorean true true true [true, true]
      2020 3 14).2.1.2.2
      (numerologyCalculation ['a', 'b'] [11] Pythagorean true [true, true])
      (by simp [calculateCoreNumber, splitOnSpace])).2⟩

/-- C3: with word-reduction enabled the scorer reduces each space-delimited
segment independently, sums the per-segment final values and reduces that sum
once more to obtain the overall value; and a name of exactly one segment keeps
that single segment's own reduction-step sequence unchanged. -/
theorem calculateCoreNumber_c3 (name : List Char) (masterNumbers : List Nat)
    (ns : NumberSystem) (mask : List Bool) :
    (calculateCoreNumber name masterNumbers true ns mask).Value
      = (reduceNumbers
          ((((splitOnSpace (name.zip mask) []).map (fun seg =>
              numerologyCalculation (seg.map Prod.fst) masterNumbers ns true
                (seg.map Prod.snd))).map (fun b => b.Value)).sum)
          masterNumbers []).getLastD 0 ∧
    ((splitOnSpace (name.zip mask) []).length = 1 →
      (calculateCoreNumber name masterNumbers true ns mask).ReduceSteps
        = (((splitOnSpace (name.zip mask) []).map (fun seg =>
            numerologyCalculation (seg.map Prod.fst) masterNumbers ns true
              (seg.map Prod.snd))).headD
            { Value := 0, ReduceSteps := [], LetterValues := [] }).ReduceSteps) := by
  set B := (splitOnSpace (name.zip mask) []).map (fun seg =>
    numerologyCalculation (seg.map Prod.fst) masterNumbers ns true
      (seg.map Prod.snd)) with hB
  constructor
  · by_cases hcond : B.length = 1
    · have hvalue : (calculateCoreNumber name masterNumbers true ns mask).Value
          = (B.headD { Value := 0, ReduceSteps := [], LetterValues := [] }).ReduceSteps.getLastD 0 := by
        simp only [calculateCoreNumber, ← hB]
        rw [if_pos ⟨hcond, trivial⟩]
      obtain ⟨b, hb⟩ := List.length_eq_one.mp hcond
      have hmem : b ∈ B := by
        rw [hb]
        exact List.mem_singleton_self b
      obtain ⟨seg, _, hfs⟩ := List.mem_map.mp hmem
      obtain ⟨tv, htv⟩ : ∃ tv, b.ReduceSteps = reduceNumbers tv masterNumbers [] := by
        rw [← hfs]
        exact numerologyCalculation_steps_true _ _ _ _
      have hvlast : b.Value = b.ReduceSteps.getLastD 0 := by
        rw [← hfs]
        exact numerologyCalculation_value _ _ _ _ _
      have hfix : reduceNumbers b.Value masterNumbers [] = [b.Value] := by
        apply reduceNumbers_fixed
        rw [hvlast, htv]
        exact reduceNumbers_last tv masterNumbers
      rw [hvalue, hb]
      simp only [List.headD_cons, List.map_cons, List.map_nil, List.sum_cons,
        List.sum_nil, Nat.add_zero]
      rw [hfix]
      simp [hvlast]
    · have hvalue : (calculateCoreNumber name masterNumbers true ns mask).Value
          = (reduceNumbers ((B.map (fun b => b.Value)).sum) masterNumbers []).getLastD 0 := by
        simp only [calculateCoreNumber, ← hB]
        rw [if_neg]
        intro hc
        exact hcond hc.1
      exact hvalue
  · intro hseg1
    have hcond : B.length = 1 := by
      rw [hB, List.length_map]
      exact hseg1
    simp only [calculateCoreNumber, ← hB]
    rw [if_pos ⟨hcond, trivial⟩]

/-- C3, witness: the single-segment case at the concrete name "ab" under the
Pythagorean system. -/
theorem calculateCoreNumber_c3_witness :
    (calculateCoreNumber ['a', 'b'] [] true Pythagorean [true, true]).ReduceSteps
      = (((splitOnSpace ((['a', 'b'] : List Char).zip [true, true]) []).map (fun seg =>
          numerologyCalculation (seg.map Prod.fst) [] Pythagorean true
            (seg.map Prod.snd))).headD
          { Value := 0, ReduceSteps := [], LetterValues := [] }).ReduceSteps :=
  (calculateCoreNumber_c3 ['a', 'b'] [] Pythagorean [true, true]).2
    (by simp [splitOnSpace])

/-- C7: the date calculation reduces year, month and day individually with the
caller's master numbers and sums the three final values; the life-path variant
reduces that sum with the caller's master numbers while the event variant
reduces it with an empty master-number set, so the final value of Event is
always strictly below 10. -/
theorem calculateDate_c7 (year month day : Nat) (masterNumbers : List Nat) :
    (∀ lifePath : Bool,
      (calculateDate year month day masterNumbers lifePath).Breakdown
        = [year, month, day].map (fun val =>
            { Value := (reduceNumbers val masterNumbers []).getLastD 0,
              ReduceSteps := reduceNumbers val masterNumbers [],
              LetterValues := letterValuesFromNumber val masterNumbers })) ∧
    (calculateDate year month day masterNumbers true).ReduceSteps
      = reduceNumbers
          (([year, month, day].map (fun val =>
              (reduceNumbers val masterNumbers []).getLastD 0)).sum)
          masterNumbers [] ∧
    (calculateDate year month day masterNumbers false).ReduceSteps
      = reduceNumbers
          (([year, month, day].map (fun val =>
              (reduceNumbers val masterNumbers []).getLastD 0)).sum)
          [] [] ∧
    (DateNumerologyEvent year month day masterNumbers).Value < 10 := by
  refine ⟨fun lifePath => by cases lifePath <;> rfl, ?_, ?_, ?_⟩
  · simp only [calculateDate, List.map_map]
    rfl
  · simp only [calculateDate, List.map_map]
    rfl
  · have h := reduceNumbers_last
      (((calculateDate year month day masterNumbers false).Breakdown.map
        (fun b => b.Value)).sum) []
    rcases h with h | h
    · exact h
    · simp at h

/- Lemmas about the inverse-range solver. -/

theorem getD_length_sub_one (l : List Nat) (h : l ≠ []) :
    l.getD (l.length - 1) 0 = l.getLastD 0 := by
  have hlt : l.length - 1 < l.length := by
    cases l with
    | nil => simp at h
    | cons a t => simp
  rw [List.getD_eq_getElem _ _ hlt, List.getLastD_eq_getLast?,
    List.getLast?_eq_getLast l h, Option.getD_some]
  exact (List.getLast_eq_getElem l h).symm

theorem reduceNumbers_getD_zero (n : Nat) (m : List Nat) :
    (reduceNumbers n m []).getD 0 0 = n := by
  obtain ⟨t, ht⟩ := reduceNumbers_cons n m
  rw [ht]
  rfl

theorem matchScan_eq_false_iff (pos neg : List Nat) :
    ∀ (l : List Nat) (b : Bool),
      matchScan pos neg l b = false ↔
        ((∃ l₁ x l₂, l = l₁ ++ x :: l₂ ∧ (∀ y ∈ l₁, y ∉ pos ∧ y ∉ neg) ∧
            x ∈ pos ∧ x ∉ neg) ∨
          (b = false ∧ ∀ y ∈ l, y ∉ pos ∧ y ∉ neg)) := by
  intro l
  induction l with
  | nil =>
    intro b
    constructor
    · intro hb
      right
      refine ⟨?_, by simp⟩
      simpa [matchScan] using hb
    · intro h
      rcases h with ⟨l₁, x, l₂, heq, _, _, _⟩ | ⟨hb, _⟩
      · exact absurd heq (by simp)
      · simpa [matchScan] using hb
  | cons v rest ih =>
    intro b
    by_cases hvneg : v ∈ neg
    · constructor
      · intro hb
        simp [matchScan, hvneg] at hb
      · intro h
        exfalso
        rcases h with ⟨l₁, x, l₂, heq, hclean, hxpos, hxneg⟩ | ⟨_, hall⟩
        · cases l₁ with
          | nil =>
            simp only [List.nil_append, List.cons.injEq] at heq
            exact hxneg (heq.1 ▸ hvneg)
          | cons a l₁t =>
            simp only [List.cons_append, List.cons.injEq] at heq
            exact (hclean a (List.mem_cons_self a l₁t)).2 (heq.1 ▸ hvneg)
        · exact (hall v (List.mem_cons_self v rest)).2 hvneg
    · by_cases hvpos : v ∈ pos
      · constructor
        · intro _
          left
          exact ⟨[], v, rest, rfl, by simp, hvpos, hvneg⟩
        · intro _
          simp [matchScan, hvneg, hvpos]
      · have hstep : matchScan pos neg (v :: rest) b = matchScan pos neg rest b := by
          simp [matchScan, hvneg, hvpos]
        rw [hstep, ih b]
        constructor
        · intro h
          rcases h with ⟨l₁, x, l₂, heq, hclean, hxpos, hxneg⟩ | ⟨hb, hall⟩
          · left
            refine ⟨v :: l₁, x, l₂, by rw [heq]; rfl, ?_, hxpos, hxneg⟩
            intro y hy
            rcases List.mem_cons.mp hy with hyv | hyl
            · exact hyv ▸ ⟨hvpos, hvneg⟩
            · exact hclean y hyl
          · right
            refine ⟨hb, ?_⟩
            intro y hy
            rcases List.mem_cons.mp hy with hyv | hyl
            · exact hyv ▸ ⟨hvpos, hvneg⟩
            · exact hall y hyl
        · intro h
          rcases h with ⟨l₁, x, l₂, heq, hclean, hxpos, hxneg⟩ | ⟨hb, hall⟩
          · cases l₁ with
            | nil =>
              simp only [List.nil_append, List.cons.injEq] at heq
              exact absurd (heq.1 ▸ hxpos) hvpos
            | cons a l₁t =>
              simp only [List.cons_append, List.cons.injEq] at heq
              left
              refine ⟨l₁t, x, l₂, heq.2, ?_, hxpos, hxneg⟩
              intro y hy
              exact hclean y (List.mem_cons_of_mem a hy)
          · right
            exact ⟨hb, fun y hy => hall y (List.mem_cons_of_mem v hy)⟩

/-- C2, counterexample: the claim accepts a candidate by looking only at the
final reduced total, but the code scans every step of the reduction sequence
in order and the first step found in either target set decides. With known
prefix 18, bound 19, targets [19, -1] (accept 19, exclude 1) and no word
reduction, candidate i = 1 gives the sequence reduce(18 + 1) = [19, 10, 1]:
the code accepts it at step 19, while the claim requires rejection because the
final reduced total 1 lies in the excluded set. -/
theorem generateLookupNums_c2_counterexample :
    1 ∈ generateLookupNums 18 19 [19, -1] [] false ∧
      ¬ specLookupAccept 18 19 [19, -1] [] false 1 := by
  have h19 : reduceNumbers 19 [] [] = [19, 10, 1] := by
    simp [reduceNumbers, splitNumber, splitNumberAux, isMasterNumber]
  have h1 : reduceNumbers 1 [] [] = [1] := by
    simp [reduceNumbers]
  constructor
  · have hout : generateLookupNums 18 19 [19, -1] [] false = [1] := by
      simp [generateLookupNums, List.range', h1, h19, matchScan]
    rw [hout]
    exact List.mem_singleton_self 1
  · simp [specLookupAccept, h19]

/-- C2 (amended): i is in the output of generateLookupNums iff
1 ≤ i ≤ maxSearchNumber - minSearchNumber and the reduction sequence of
minSearchNumber + r (with r the final reduced value of i under word-reduction
and i itself otherwise) passes the ordered scan: the first step of the
sequence that lies in the acceptable or excluded set must lie in the
acceptable set (and not the excluded one), and if no step lies in either set
the candidate is accepted exactly when the acceptable set is empty. -/
theorem generateLookupNums_c2_amended (minSearchNumber maxSearchNumber : Nat)
    (numerologyNums : List Int) (masterNumbers : List Nat) (reduceWords : Bool)
    (i : Nat) :
    i ∈ generateLookupNums minSearchNumber maxSearchNumber numerologyNums
        masterNumbers reduceWords ↔
      (1 ≤ i ∧ i ≤ maxSearchNumber - minSearchNumber ∧
        scanAccepts
          (reduceNumbers (minSearchNumber +
              (if reduceWords then (reduceNumbers i masterNumbers []).getLastD 0
                else i))
            masterNumbers [])
          ((numerologyNums.filter (fun n => 0 ≤ n)).map Int.toNat)
          ((numerologyNums.filter (fun n => n < 0)).map (fun n => (-n).toNat))) := by
  have hne : reduceNumbers i masterNumbers [] ≠ [] :=
    reduceNumbers_ne_nil i masterNumbers []
  have hidx : (reduceNumbers i masterNumbers []).getD
      (if reduceWords then (reduceNumbers i masterNumbers []).length - 1 else 0) 0
      = (if reduceWords then (reduceNumbers i masterNumbers []).getLastD 0 else i) := by
    cases reduceWords with
    | true => simpa using getD_length_sub_one _ hne
    | false => simpa using reduceNumbers_getD_zero i masterNumbers
  simp only [generateLookupNums, List.mem_filter, List.mem_range'_1,
    Bool.not_eq_true']
  rw [hidx, matchScan_eq_false_iff]
  simp only [scanAccepts]
  constructor
  · rintro ⟨⟨h1, h2⟩, hsc⟩
    refine ⟨h1, by omega, ?_⟩
    rcases hsc with hl | ⟨hb, hall⟩
    · exact Or.inl hl
    · exact Or.inr ⟨by simpa [List.isEmpty_iff] using hb, hall⟩
  · rintro ⟨h1, h2, hsc⟩
    refine ⟨⟨h1, by omega⟩, ?_⟩
    rcases hsc with hl | ⟨hb, hall⟩
    · exact Or.inl hl
    · refine Or.inr ⟨?_, hall⟩
      rw [hb]
      rfl

/-- C2, witness: the amended characterization applied at the concrete search
for target 5 with prefix 0 and bound 9, accepting candidate 5. -/
theorem generateLookupNums_c2_witness :
    5 ∈ generateLookupNums 0 9 [5] [] false :=
  (generateLookupNums_c2_amended 0 9 [5] [] false 5).mpr
    ⟨by norm_num, by norm_num,
      Or.inl ⟨[], 5, [], by simp [reduceNumbers], by simp, by decide, by decide⟩⟩

/-- C8: for a non-empty constraint list, each positive entry d contributes the
predicate "count column of d ≤ -known[d]" — equivalent, over non-negative
counts, to the combined count of d being zero — and each negative entry -d
contributes "count column of d + known[d] > 0", the combined count of d being
positive; an empty constraint list contributes no predicate. -/
theorem queryKarmicLessons_c8 (name : List Char) (ns : NumberSystem)
    (nums : List Int) (tableCounts : Nat → Nat) :
    queryKarmicLessons name [] ns = [] ∧
    (queryKarmicLessons name nums ns).length = nums.length ∧
    (∀ k, k < nums.length →
      (0 ≤ nums.getD k 0 →
        (queryKarmicLessons name nums ns).getD k (KarmicQuery.countLe (' ', 0) 0)
          = KarmicQuery.countLe
              (toLowerChar (ns.Name.headD 'p'), (nums.getD k 0).toNat)
              (0 - ((((countNumerologicalNumbers name ns).1.lookup
                  (nums.getD k 0).toNat).getD 0 : Nat) : Int)) ∧
        (((queryKarmicLessons name nums ns).getD k
              (KarmicQuery.countLe (' ', 0) 0)).holds tableCounts = true ↔
          tableCounts (nums.getD k 0).toNat +
            ((countNumerologicalNumbers name ns).1.lookup
              (nums.getD k 0).toNat).getD 0 = 0)) ∧
      (nums.getD k 0 < 0 →
        (queryKarmicLessons name nums ns).getD k (KarmicQuery.countLe (' ', 0) 0)
          = KarmicQuery.countPlusPos
              (toLowerChar (ns.Name.headD 'p'), (-(nums.getD k 0)).toNat)
              (((countNumerologicalNumbers name ns).1.lookup
                (-(nums.getD k 0)).toNat).getD 0) ∧
        (((queryKarmicLessons name nums ns).getD k
              (KarmicQuery.countLe (' ', 0) 0)).holds tableCounts = true ↔
          0 < tableCounts (-(nums.getD k 0)).toNat +
            ((countNumerologicalNumbers name ns).1.lookup
              (-(nums.getD k 0)).toNat).getD 0))) := by
  refine ⟨rfl, ?_, ?_⟩
  · by_cases hnil : nums.isEmpty
    · rw [queryKarmicLessons, if_pos hnil]
      rw [List.isEmpty_iff.mp hnil]
      rfl
    · rw [queryKarmicLessons, if_neg hnil]
      exact List.length_map _ _
  · intro k hk
    have hnil : ¬ nums.isEmpty := by
      cases nums with
      | nil => simp at hk
      | cons a t => simp
    have hkmap : k < (nums.map (fun i =>
        if i < 0 then
          KarmicQuery.countPlusPos (toLowerChar (ns.Name.headD 'p'), (-i).toNat)
            (((countNumerologicalNumbers name ns).1.lookup (-i).toNat).getD 0)
        else
          KarmicQuery.countLe (toLowerChar (ns.Name.headD 'p'), i.toNat)
            (0 - ((((countNumerologicalNumbers name ns).1.lookup i.toNat).getD 0 :
              Nat) : Int)))).length := by
      rw [List.length_map]
      exact hk
    have hq : (queryKarmicLessons name nums ns).getD k (KarmicQuery.countLe (' ', 0) 0)
        = (fun i =>
          if i < 0 then
            KarmicQuery.countPlusPos (toLowerChar (ns.Name.headD 'p'), (-i).toNat)
              (((countNumerologicalNumbers name ns).1.lookup (-i).toNat).getD 0)
          else
            KarmicQuery.countLe (toLowerChar (ns.Name.headD 'p'), i.toNat)
              (0 - ((((countNumerologicalNumbers name ns).1.lookup i.toNat).getD 0 :
                Nat) : Int))) (nums.getD k 0) := by
      rw [queryKarmicLessons, if_neg hnil]
      rw [List.getD_eq_getElem _ _ hkmap, List.getElem_map]
      rw [List.getD_eq_getElem _ _ hk]
    constructor
    · intro hpos
      have hneg : ¬ nums.getD k 0 < 0 := by omega
      rw [hq]
      simp only [hneg, if_false]
      refine ⟨trivial, ?_⟩
      simp only [KarmicQuery.holds, decide_eq_true_eq]
      omega
    · intro hneg
      rw [hq]
      simp only [hneg, if_true]
      refine ⟨trivial, ?_⟩
      simp only [KarmicQuery.holds, decide_eq_true_eq]
      omega

/-- C8, witness: the karmic-lesson predicates for the list [2, -1] on the
known name "a", evaluated against an all-zero table row. -/
theorem queryKarmicLessons_c8_witness :
    queryKarmicLessons ['a'] [] Pythagorean = [] ∧
    (queryKarmicLessons ['a'] [2, -1] Pythagorean).length = 2 ∧
    (((queryKarmicLessons ['a'] [2, -1] Pythagorean).getD 0
        (KarmicQuery.countLe (' ', 0) 0)).holds (fun _ => 0) = true ↔
      (0 : Nat) + ((countNumerologicalNumbers ['a'] Pythagorean).1.lookup 2).getD 0 = 0) ∧
    (((queryKarmicLessons ['a'] [2, -1] Pythagorean).getD 1
        (KarmicQuery.countLe (' ', 0) 0)).holds (fun _ => 0) = true ↔
      0 < (0 : Nat) + ((countNumerologicalNumbers ['a'] Pythagorean).1.lookup 1).getD 0) :=
  ⟨(queryKarmicLessons_c8 ['a'] Pythagorean [2, -1] (fun _ => 0)).1,
   (queryKarmicLessons_c8 ['a'] Pythagorean [2, -1] (fun _ => 0)).2.1,
   (((queryKarmicLessons_c8 ['a'] Pythagorean [2, -1] (fun _ => 0)).2.2 0
      (by decide)).1 (by decide)).2,
   (((queryKarmicLessons_c8 ['a'] Pythagorean [2, -1] (fun _ => 0)).2.2 1
      (by decide)).2 (by decide)).2⟩

/-- C9: the search dispatcher fails validation — reaching no database access
or predicate construction — when the template has zero question marks or two
or more, and proceeds to the database search exactly when it has one. -/
theorem search_c9 (name : List Char) :
    (name.count '?' = 0 →
      NameNumerologySearch name
        = SearchOutcome.failed SearchError.missingQuestionMark) ∧
    (2 ≤ name.count '?' →
      NameNumerologySearch name
        = SearchOutcome.failed SearchError.tooManyQuestionMarks) ∧
    (NameNumerologySearch name = SearchOutcome.databaseSearch ↔
      name.count '?' = 1) := by
  refine ⟨?_, ?_, ?_⟩
  · intro h
    simp [NameNumerologySearch, h]
  · intro h
    obtain ⟨n, hn⟩ : ∃ n, name.count '?' = n + 2 :=
      ⟨name.count '?' - 2, by omega⟩
    simp [NameNumerologySearch, hn]
  · constructor
    · intro h
      by_contra hne
      rcases Nat.lt_or_ge (name.count '?') 1 with h0 | h2
      · have h00 : name.count '?' = 0 := by omega
        simp [NameNumerologySearch, h00] at h
      · have h22 : 2 ≤ name.count '?' := by omega
        obtain ⟨n, hn⟩ : ∃ n, name.count '?' = n + 2 :=
          ⟨name.count '?' - 2, by omega⟩
        simp [NameNumerologySearch, hn] at h
    · intro h
      simp [NameNumerologySearch, h]

/-- C9, witness: the dispatcher at templates with zero, one and two question
marks. -/
theorem search_c9_witness :
    NameNumerologySearch ['j', 'o', 'n']
      = SearchOutcome.failed SearchError.missingQuestionMark ∧
    NameNumerologySearch ['j', '?', 'n'] = SearchOutcome.databaseSearch ∧
    NameNumerologySearch ['?', '?']
      = SearchOutcome.failed SearchError.tooManyQuestionMarks :=
  ⟨(search_c9 ['j', 'o', 'n']).1 (by decide),
   (search_c9 ['j', '?', 'n']).2.2.mpr (by decide),
   (search_c9 ['?', '?']).2.1 (by decide)⟩

/- Lemmas about the result-paging loop. -/

theorem pageLoop_total_le (c t : Nat) (h : t ≤ c) :
    ∀ (rows : List (Int × List Char)) (i : Nat) (names : List (List Char))
      (off : Int),
      pageLoop c t i rows names off = (names ++ rows.map (fun r => r.2), off) := by
  intro rows
  induction rows with
  | nil =>
    intro i names off
    simp [pageLoop]
  | cons r rest ih =>
    intro i names off
    rw [pageLoop, if_pos (Or.inl h), ih]
    simp

theorem pageLoop_length_gt (c t : Nat) (h : ¬ t ≤ c) :
    ∀ (rows : List (Int × List Char)) (i : Nat) (names : List (List Char))
      (off : Int),
      (pageLoop c t i rows names off).1.length
        = names.length + min rows.length (t - 1 - i) := by
  intro rows
  induction rows with
  | nil =>
    intro i names off
    simp [pageLoop]
  | cons r rest ih =>
    intro i names off
    by_cases hi : i < t - 1
    · rw [pageLoop, if_pos (Or.inr hi), ih]
      simp only [List.length_append, List.length_cons, List.length_nil,
        List.length_singleton]
      omega
    · have hcond : ¬ (t ≤ c ∨ i < t - 1) := by
        intro hor
        rcases hor with h1 | h2
        · exact h h1
        · exact hi h2
      rw [pageLoop, if_neg hcond, ih]
      simp only [List.length_cons]
      omega

/-- C10: a search request with Count 0 behaves exactly as one with Count 25 —
the database limit is 25 + 1 rows (the extra row probes for more results), at
most 25 names are returned, and under random sort a non-zero probe offset
becomes the request offset plus 25. -/
theorem nameSearchPaging_c10 (sortIsRandom : Bool) (requestOffset : Nat)
    (rows : List (Int × List Char)) :
    nameSearchPaging 0 sortIsRandom requestOffset rows
      = nameSearchPaging 25 sortIsRandom requestOffset rows ∧
    (nameSearchPaging 0 sortIsRandom requestOffset rows).limit = 26 ∧
    (nameSearchPaging 0 sortIsRandom requestOffset rows).names.length ≤ 25 ∧
    (0 < (pageLoop 25 (rows.take 26).length 0 (rows.take 26) [] 0).2 →
      sortIsRandom = true →
      (nameSearchPaging 0 sortIsRandom requestOffset rows).offset
        = (requestOffset : Int) + 25) := by
  refine ⟨rfl, rfl, ?_, ?_⟩
  · have htake : (rows.take 26).length ≤ 26 := by
      rw [List.length_take]
      omega
    show (pageLoop 25 (rows.take 26).length 0 (rows.take 26) [] 0).1.length ≤ 25
    by_cases hc : (rows.take 26).length ≤ 25
    · rw [pageLoop_total_le 25 _ hc]
      simpa using hc
    · rw [pageLoop_length_gt 25 _ hc]
      simp only [List.length_nil, Nat.zero_add]
      omega
  · intro hpos hrand
    have hoff : (nameSearchPaging 0 sortIsRandom requestOffset rows).offset
        = if 0 < (pageLoop 25 (rows.take 26).length 0 (rows.take 26) [] 0).2 ∧
            sortIsRandom = true
          then ((requestOffset : Int) + ((25 : Nat) : Int))
          else (pageLoop 25 (rows.take 26).length 0 (rows.take 26) [] 0).2 := rfl
    rw [hoff, if_pos ⟨hpos, hrand⟩]
    norm_num

/-- C10, witness: paging 30 rows with Count 0 under random sort at request
offset 7 fetches 26 rows, returns 25 names and continues at offset 32. -/
theorem nameSearchPaging_c10_witness :
    (nameSearchPaging 0 true 7
        ((List.range 30).map (fun j => ((j : Int) + 1, ['a'])))).names.length ≤ 25 ∧
    (nameSearchPaging 0 true 7
        ((List.range 30).map (fun j => ((j : Int) + 1, ['a'])))).offset = (7 : Int) + 25 :=
  ⟨(nameSearchPaging_c10 true 7
      ((List.range 30).map (fun j => ((j : Int) + 1, ['a'])))).2.2.1,
   (nameSearchPaging_c10 true 7
      ((List.range 30).map (fun j => ((j : Int) + 1, ['a'])))).2.2.2
      (by decide) rfl⟩
